import Mathlib

set_option maxRecDepth 20000
set_option maxHeartbeats 1000000

/-!
Verification development for the stock-sentinel walk-forward backtesting core.

The embedding translates the three core components of the repository into Lean:
the indicator engine and signal generator (src/strategies/engineer.py,
class EngineerStrategy), the position sizer (src/strategies/position_sizer.py,
class PositionSizer) and the simulation engine (src/backtester.py, class
Backtester).  Machine floats are modelled as rationals; the one place where
IEEE special values are observable (the RSI quotient avg_gain / avg_loss when
avg_loss = 0) is modelled with an explicit value type `FVal` carrying
infinities and a not-a-number element, with the float semantics of the exact
operations the source performs on that quotient.
-/

namespace StockSentinel

/-- Model of the IEEE float values that can reach the RSI column: a finite
rational, the two infinities, or NaN.  pandas computes `avg_gain / avg_loss`
elementwise; division of a positive number by zero yields infinity and 0/0
yields NaN, and these propagate through `100 - (100 / (1 + rs))`. -/
inductive FVal where
  | num (q : ℚ)
  | inf
  | negInf
  | nan
deriving DecidableEq, Repr

/-- Float division of two finite values (pandas Series division semantics):
a nonzero divisor gives the rational quotient; division of a positive value by
zero gives +inf, of a negative value -inf, and 0/0 gives NaN. -/
def qdivF (a b : ℚ) : FVal :=
  if b ≠ 0 then .num (a / b)
  else if 0 < a then .inf
  else if a < 0 then .negInf
  else .nan

/-- IEEE addition on the modelled values. -/
def fadd : FVal → FVal → FVal
  | .num a, .num b => .num (a + b)
  | .nan, _ => .nan
  | _, .nan => .nan
  | .inf, .negInf => .nan
  | .negInf, .inf => .nan
  | .inf, _ => .inf
  | _, .inf => .inf
  | .negInf, _ => .negInf
  | _, .negInf => .negInf

/-- IEEE subtraction on the modelled values. -/
def fsub : FVal → FVal → FVal
  | .num a, .num b => .num (a - b)
  | .nan, _ => .nan
  | _, .nan => .nan
  | .inf, .inf => .nan
  | .negInf, .negInf => .nan
  | .inf, _ => .inf
  | _, .negInf => .inf
  | .negInf, _ => .negInf
  | _, .inf => .negInf

/-- IEEE division on the modelled values. -/
def fdivF : FVal → FVal → FVal
  | .num a, .num b => qdivF a b
  | .nan, _ => .nan
  | _, .nan => .nan
  | .num _, .inf => .num 0
  | .num _, .negInf => .num 0
  | .inf, .num b => if b < 0 then .negInf else .inf
  | .negInf, .num b => if b < 0 then .inf else .negInf
  | .inf, .inf => .nan
  | .inf, .negInf => .nan
  | .negInf, .inf => .nan
  | .negInf, .negInf => .nan

/-- Comparison `x <= c` against a finite constant; NaN compares false
(IEEE comparison semantics, matching `curr['RSI'] <= 55` in the source). -/
def fleC (x : FVal) (c : ℚ) : Bool :=
  match x with
  | .num a => decide (a ≤ c)
  | .inf => false
  | .negInf => true
  | .nan => false

/-- Comparison `x > c` against a finite constant; NaN compares false
(IEEE comparison semantics, matching `curr['RSI'] > 75` in the source). -/
def fgtC (x : FVal) (c : ℚ) : Bool :=
  match x with
  | .num a => decide (c < a)
  | .inf => true
  | .negInf => false
  | .nan => false

/-! ### Series plumbing

`ewmMean a xs` is pandas `xs.ewm(adjust=False).mean()` with smoothing factor
`a`: seeded with the first element, then `y_i = a * x_i + (1 - a) * y_(i-1)`. -/

/-- Recursive tail of the exponentially weighted mean, given the previous
smoothed value. -/
def ewmFrom (a y : ℚ) : List ℚ → List ℚ
  | [] => []
  | x :: xs =>
    let y2 := a * x + (1 - a) * y
    y2 :: ewmFrom a y2 xs

/-- pandas `Series.ewm(alpha = a, adjust = False).mean()`. -/
def ewmMean (a : ℚ) : List ℚ → List ℚ
  | [] => []
  | x :: xs => x :: ewmFrom a x xs

/-- The gain series `delta.where(delta > 0, 0)` where `delta = close.diff()`:
first element 0 (the leading NaN difference compares false and is replaced),
then the positive parts of successive differences. -/
def gainSeries : List ℚ → List ℚ
  | [] => []
  | c :: cs =>
    0 :: List.zipWith (fun cur prev => if 0 < cur - prev then cur - prev else 0) cs (c :: cs)

/-- The loss series `-delta.where(delta < 0, 0)`: first element 0, then the
negated negative parts of successive differences. -/
def lossSeries : List ℚ → List ℚ
  | [] => []
  | c :: cs =>
    0 :: List.zipWith (fun cur prev => if cur - prev < 0 then -(cur - prev) else 0) cs (c :: cs)

/-- Three-list pointwise combination, used for the true-range rows. -/
def zipW3 (f : α → β → γ → δ) : List α → List β → List γ → List δ
  | a :: as, b :: bs, c :: cs => f a b c :: zipW3 f as bs cs
  | _, _, _ => []

/-- The true-range series: row 0 is `high - low` (the shifted-close terms are
NaN there and pandas `max(axis=1)` skips them); every later row is
`max(high - low, |high - prev_close|, |low - prev_close|)`. -/
def trSeries : List ℚ → List ℚ → List ℚ → List ℚ
  | h :: hs, l :: ls, c :: cs =>
    (h - l) :: zipW3 (fun hi lo pc => max (hi - lo) (max |hi - pc| |lo - pc|)) hs ls (c :: cs)
  | _, _, _ => []

/-- Last two elements of a list, in order (second-to-last, last): the
`df.iloc[-2]` / `df.iloc[-1]` pair.  `none` when the list has fewer than two
elements (the source raises an index error there). -/
def lastTwo {α : Type} (l : List α) : Option (α × α) :=
  match l.reverse with
  | curr :: prev :: _ => some (prev, curr)
  | _ => none

/-! ### The indicator engine and signal generator (EngineerStrategy) -/

/-- Constructor parameters of `EngineerStrategy` with the source defaults.
`atrMult` is stored by the constructor but unused by `analyze` (the hard stop
uses an explicit 1.0 buffer). -/
structure EngineerStrategy where
  ema_len : ℚ := 20
  rsi_len : ℚ := 14
  atr_len : ℚ := 14
  atrMult : ℚ := 3
deriving DecidableEq, Repr

/-- The default-constructed strategy used by the backtester. -/
def defaultStrategy : EngineerStrategy := {}

/-- `df['EMA'] = df['close'].ewm(span=ema_len, adjust=False).mean()`:
smoothing factor 2 / (span + 1). -/
def emaSeries (p : EngineerStrategy) (closes : List ℚ) : List ℚ :=
  ewmMean (2 / (p.ema_len + 1)) closes

/-- `avg_gain = gain.ewm(alpha=1/rsi_len, adjust=False).mean()`. -/
def avgGainSeries (p : EngineerStrategy) (closes : List ℚ) : List ℚ :=
  ewmMean (1 / p.rsi_len) (gainSeries closes)

/-- `avg_loss = loss.ewm(alpha=1/rsi_len, adjust=False).mean()`. -/
def avgLossSeries (p : EngineerStrategy) (closes : List ℚ) : List ℚ :=
  ewmMean (1 / p.rsi_len) (lossSeries closes)

/-- `df['RSI'] = 100 - (100 / (1 + rs))` with `rs = avg_gain / avg_loss`,
elementwise with float semantics. -/
def rsiSeries (p : EngineerStrategy) (closes : List ℚ) : List FVal :=
  List.zipWith
    (fun g l => fsub (FVal.num 100) (fdivF (FVal.num 100) (fadd (FVal.num 1) (qdivF g l))))
    (avgGainSeries p closes) (avgLossSeries p closes)

/-- `df['ATR'] = tr.ewm(alpha=1/atr_len, adjust=False).mean()`. -/
def atrSeries (p : EngineerStrategy) (high low close : List ℚ) : List ℚ :=
  ewmMean (1 / p.atr_len) (trSeries high low close)

/-- The four signal kinds returned by `EngineerStrategy.analyze`. -/
inductive Signal where
  | BUY
  | SELL
  | HOLD
  | PROFIT
deriving DecidableEq, Repr

/-- The severity tags of the source. -/
inductive Severity where
  | info
  | success
  | warning
  | danger
deriving DecidableEq, Repr

/-- The human-readable reason of each cascade branch.  The source builds a
string; the SELL branch interpolates the hard-stop level into it, carried here
as a payload.  The other format details are presentation only. -/
inductive Reason where
  | breachedAtrDefense (hard_stop : ℚ)
  | breachedEmaWatch
  | trendConfirmedEntry
  | rsiOverbought
  | normalFluctuation
deriving DecidableEq, Repr

/-- The dictionary returned by `EngineerStrategy.analyze`. -/
structure Analysis where
  price : ℚ
  ema : ℚ
  rsi : FVal
  stop_loss : ℚ
  signal : Signal
  reason : Reason
  severity : Severity
deriving DecidableEq, Repr

/-- The model of a pandas DataFrame as the source uses it: the three input
columns, plus the three indicator columns `analyze` writes into its argument
(absent, i.e. `none`, until `analyze` has run on the frame). -/
structure DataFrame where
  close : List ℚ
  high : List ℚ
  low : List ℚ
  ema : Option (List ℚ) := none
  rsi : Option (List FVal) := none
  atr : Option (List ℚ) := none
deriving DecidableEq, Repr

/-- The fixed-priority if/elif cascade of `EngineerStrategy.analyze`, on the
values of the last two rows (current close/EMA/RSI/ATR, previous close and
EMA).  The hard stop is EMA minus a 1x ATR buffer; branches are evaluated in
strict order, first match winning. -/
def signalCascade (prevClose price prevEma ema : ℚ) (rsi : FVal) (atr : ℚ) : Analysis :=
  let hard_stop := ema - atr * 1
  if price < hard_stop then
    { price := price, ema := ema, rsi := rsi, stop_loss := hard_stop,
      signal := .SELL, reason := .breachedAtrDefense hard_stop, severity := .danger }
  else if price < ema then
    { price := price, ema := ema, rsi := rsi, stop_loss := hard_stop,
      signal := .HOLD, reason := .breachedEmaWatch, severity := .warning }
  else if price > ema ∧ (fleC rsi 55 = true ∨ prevClose < prevEma) then
    { price := price, ema := ema, rsi := rsi, stop_loss := hard_stop,
      signal := .BUY, reason := .trendConfirmedEntry, severity := .success }
  else if fgtC rsi 75 = true then
    { price := price, ema := ema, rsi := rsi, stop_loss := hard_stop,
      signal := .PROFIT, reason := .rsiOverbought, severity := .warning }
  else
    { price := price, ema := ema, rsi := rsi, stop_loss := hard_stop,
      signal := .HOLD, reason := .normalFluctuation, severity := .info }

/-- The signal part of `EngineerStrategy.analyze`: read the last two rows of
the indicator-augmented frame and run the fixed-priority cascade.  `none`
models the index error the source raises on frames with fewer than two rows. -/
def EngineerStrategy.signalOf (p : EngineerStrategy) (df : DataFrame) : Option Analysis :=
  match lastTwo df.close, lastTwo (emaSeries p df.close),
        (rsiSeries p df.close).getLast?, (atrSeries p df.high df.low df.close).getLast? with
  | some (prevClose, price), some (prevEma, ema), some rsi, some atr =>
    some (signalCascade prevClose price prevEma ema rsi atr)
  | _, _, _, _ => none

/-- `EngineerStrategy.analyze`: writes the EMA, RSI and ATR columns into the
argument frame (the source mutates its argument DataFrame in place) and
returns the signal dictionary computed from the last two rows. -/
def EngineerStrategy.analyze (p : EngineerStrategy) (df : DataFrame) :
    DataFrame × Option Analysis :=
  ({ df with
      ema := some (emaSeries p df.close)
      rsi := some (rsiSeries p df.close)
      atr := some (atrSeries p df.high df.low df.close) },
   p.signalOf df)

/-! ### The position sizer (PositionSizer) -/

/-- Constructor parameters of `PositionSizer` with the source defaults. -/
structure PositionSizer where
  account_size : ℚ := 10000
  base_risk_pct : ℚ := 1 / 100
deriving DecidableEq, Repr

/-- The `risk_modifier` lookup table with `.get(regime, 0.5)` default. -/
def risk_modifier (regime : String) : ℚ :=
  if regime = "RISK_ON" then 1
  else if regime = "NEUTRAL" then 1 / 2
  else if regime = "RISK_OFF" then 1 / 4
  else 1 / 2

/-- The dictionary returned by `PositionSizer.calculate_size`.  The formatted
`message` string of the source is presentation only and not modelled. -/
structure SizingResult where
  shares : ℤ
  position_value : ℚ
  risk_amount : ℚ
  risk_pct_of_account : ℚ
  regime_modifier : ℚ
deriving DecidableEq, Repr

/-- `PositionSizer.calculate_size(price, stop_loss, regime)`. -/
def PositionSizer.calculate_size (ps : PositionSizer) (price stop_loss : ℚ)
    (regime : String) : SizingResult :=
  let modifier := risk_modifier regime
  let effective_risk_pct := ps.base_risk_pct * modifier
  let risk_amount := ps.account_size * effective_risk_pct
  let risk_per_share0 := price - stop_loss
  let risk_per_share := if risk_per_share0 ≤ 0 then price * (5 / 100) else risk_per_share0
  let shares := risk_amount / risk_per_share
  let max_allocation_amt := ps.account_size * (1 / 4)
  let max_shares_allocation := max_allocation_amt / price
  let final_shares := ⌊min shares max_shares_allocation⌋
  { shares := final_shares
    position_value := (final_shares : ℚ) * price
    risk_amount := (final_shares : ℚ) * risk_per_share
    risk_pct_of_account := (final_shares : ℚ) * risk_per_share / ps.account_size * 100
    regime_modifier := modifier }

/-! ### The simulation engine (Backtester) -/

/-- One historical observation.  The engine reads the date index and the
high/low/close columns; open and volume are unused by the core. -/
structure Bar where
  date : ℕ
  high : ℚ
  low : ℚ
  close : ℚ
deriving DecidableEq, Repr

/-- Build the frame the engine hands to the strategy from a list of bars. -/
def frameOfBars (l : List Bar) : DataFrame :=
  { close := l.map Bar.close, high := l.map Bar.high, low := l.map Bar.low }

/-- The advisory verdict extracted from the external analyst's response. -/
inductive Verdict where
  | agree
  | caution
  | disagree
deriving DecidableEq, Repr

/-- The marker the engine searches for in the response to accept a signal. -/
def agreeMarker : String := "✅ Agree"

/-- The marker the engine searches for to downsize a BUY. -/
def cautionMarker : String := "⚠️ Caution"

/-- Substring test on character lists. -/
def subList (needle : List Char) : List Char → Bool
  | [] => needle.isEmpty
  | h :: t => List.isPrefixOf needle (h :: t) || subList needle t

/-- Python `needle in hay` substring containment on strings. -/
def containsSub (needle hay : String) : Bool :=
  subList needle.data hay.data

/-- The verdict-extraction logic of `Backtester.run`: an `Agree` marker in the
response gives Agree, else a `Caution` marker gives Caution, else the verdict
is Disagree — whatever else the response holds, including the error strings
`AIAnalyst.get_analysis` returns when the external call fails. -/
def parseVdt (resp : String) : Verdict :=
  if containsSub agreeMarker resp then .agree
  else if containsSub cautionMarker resp then .caution
  else .disagree

/-- The trade-ledger reason: the strategy reason plus the advisory verdict
(the source formats these into one string; the sizing percentage it also
interpolates is presentation only). -/
structure TradeReason where
  tech : Reason
  ai : Verdict
deriving DecidableEq, Repr

/-- BUY or SELL ledger entry kind. -/
inductive TradeType where
  | BUY
  | SELL
deriving DecidableEq, Repr

/-- An immutable trade-ledger record. -/
structure TradeRec where
  type : TradeType
  date : ℕ
  price : ℚ
  qty : ℤ
  reason : TradeReason
  pnl : Option ℚ
deriving DecidableEq, Repr

/-- One equity-curve point. -/
structure EquityPoint where
  date : ℕ
  equity : ℚ
deriving DecidableEq, Repr

/-- The simulation engine.  Configuration fields mirror the constructor of the
source class; `aiResp` models the external advisory collaborator as an oracle
giving the raw response string the analyst returns at step `i` (the engine
only ever inspects it through `parseVdt`).  Mutable state: cash, shares,
total_cost, the trade ledger and the equity curve. -/
structure Backtester where
  start_date : Option ℕ := none
  use_ai : Bool := true
  slippage_pct : ℚ := 1 / 1000
  aiResp : ℕ → String := fun _ => ""
  cash : ℚ
  shares : ℤ := 0
  total_cost : ℚ := 0
  trades : List TradeRec := []
  equity_curve : List EquityPoint := []

/-- `Backtester.buy`: slippage-adjusted execution, cash out, shares and
total cost up, BUY record appended. -/
def Backtester.buy (bt : Backtester) (date : ℕ) (price : ℚ) (quantity : ℤ)
    (reason : TradeReason) : Backtester :=
  let exec_price := price * (1 + bt.slippage_pct)
  let cost := (quantity : ℚ) * exec_price
  { bt with
      cash := bt.cash - cost
      shares := bt.shares + quantity
      total_cost := bt.total_cost + cost
      trades := bt.trades ++ [{ type := .BUY, date := date, price := exec_price,
                                qty := quantity, reason := reason, pnl := none }] }

/-- `Backtester.sell`: guarded on a positive position; slippage-adjusted
execution, full liquidation, SELL record with realized pnl appended, shares
and total cost reset to zero. -/
def Backtester.sell (bt : Backtester) (date : ℕ) (price : ℚ)
    (reason : TradeReason) : Backtester :=
  if 0 < bt.shares then
    let exec_price := price * (1 - bt.slippage_pct)
    let revenue := (bt.shares : ℚ) * exec_price
    let profit := revenue - bt.total_cost
    { bt with
        cash := bt.cash + revenue
        trades := bt.trades ++ [{ type := .SELL, date := date, price := exec_price,
                                  qty := 0, reason := reason, pnl := some profit }]
        shares := 0
        total_cost := 0 }
  else bt

/-- The skip test `if self.start_date and current_date_str < self.start_date`. -/
def skipByStart : Option ℕ → ℕ → Bool
  | none, _ => false
  | some sd, d => decide (d < sd)

/-- The signal the engine computes at step `i`: the strategy runs on a copy of
the prefix `bars[0..i]` only (the mutated copy is discarded, so only the
signal dictionary flows back). -/
def signalAt (bars : List Bar) (i : ℕ) : Option Analysis :=
  (defaultStrategy.analyze (frameOfBars (bars.take (i + 1)))).2

/-- The per-step decision logic of `Backtester.run`, applied after the equity
point has been recorded: the BUY branch (affordability gate, advisory gate,
confidence-scaled fractional-cash sizing, floor quantity), the SELL/PROFIT
branch (position gate, advisory gate, full liquidation), or no action. -/
def Backtester.decision (bt : Backtester) (i : ℕ) (currentDate : ℕ)
    (a : Analysis) : Backtester :=
  if a.signal = .BUY then
    if bt.cash > a.price then
      let verdict := if bt.use_ai then parseVdt (bt.aiResp i) else .agree
      if verdict ≠ .disagree then
        let base_pct : ℚ := 2 / 10
        let confidence_mult : ℚ :=
          if verdict = .agree then 3 / 2 else if verdict = .caution then 1 / 2 else 1
        let target0 := bt.cash * base_pct * confidence_mult
        let target_amount := if target0 > bt.cash then bt.cash else target0
        let quantity : ℤ := ⌊target_amount / a.price⌋
        if 0 < quantity then
          bt.buy currentDate a.price quantity { tech := a.reason, ai := verdict }
        else bt
      else bt
    else bt
  else if a.signal = .SELL ∨ a.signal = .PROFIT then
    if 0 < bt.shares then
      let verdict := if bt.use_ai then parseVdt (bt.aiResp i) else .agree
      if verdict = .disagree then bt
      else bt.sell currentDate a.price { tech := a.reason, ai := verdict }
    else bt
  else bt

/-- One iteration of the `Backtester.run` loop at index `i`: slice the prefix
`bars[0..i]`, skip the whole iteration if the bar's date precedes
`start_date`, otherwise run the strategy, record an equity point from the
pre-trade state, and apply the decision logic. -/
def Backtester.step (bt : Backtester) (bars : List Bar) (i : ℕ) : Backtester :=
  match (bars.take (i + 1)).getLast? with
  | none => bt
  | some lastBar =>
    if skipByStart bt.start_date lastBar.date then bt
    else
      match signalAt bars i with
      | none => bt
      | some a =>
        let bt2 : Backtester := { bt with
          equity_curve := bt.equity_curve ++
            [{ date := lastBar.date, equity := bt.cash + (bt.shares : ℚ) * a.price }] }
        bt2.decision i lastBar.date a

/-- The indicator warm-up window of the run loop (`min_window = 20`). -/
def min_window : ℕ := 20

/-- `Backtester.run`: iterate the step over indices `min_window` to the end of
the cached series. -/
def Backtester.run (bt : Backtester) (bars : List Bar) : Backtester :=
  (List.range' min_window (bars.length - min_window)).foldl
    (fun b i => b.step bars i) bt

/-! ### Structural lemmas about the embedding -/

theorem length_ewmFrom (a y : ℚ) (xs : List ℚ) : (ewmFrom a y xs).length = xs.length := by
  induction xs generalizing y with
  | nil => rfl
  | cons x xs ih => simp [ewmFrom, ih]

theorem length_ewmMean (a : ℚ) (xs : List ℚ) : (ewmMean a xs).length = xs.length := by
  cases xs with
  | nil => rfl
  | cons x xs => simp [ewmMean, length_ewmFrom]

theorem length_gainSeries (xs : List ℚ) : (gainSeries xs).length = xs.length := by
  cases xs with
  | nil => rfl
  | cons x xs => simp [gainSeries]

theorem length_lossSeries (xs : List ℚ) : (lossSeries xs).length = xs.length := by
  cases xs with
  | nil => rfl
  | cons x xs => simp [lossSeries]

theorem length_zipW3 (f : α → β → γ → δ) :
    ∀ (as : List α) (bs : List β) (cs : List γ),
      (zipW3 f as bs cs).length = min as.length (min bs.length cs.length)
  | [], [], [] => by simp [zipW3]
  | [], [], _ :: _ => by simp [zipW3]
  | [], _ :: _, [] => by simp [zipW3]
  | [], _ :: _, _ :: _ => by simp [zipW3]
  | _ :: _, [], [] => by simp [zipW3]
  | _ :: _, [], _ :: _ => by simp [zipW3]
  | _ :: _, _ :: _, [] => by simp [zipW3]
  | a :: as, b :: bs, c :: cs => by
    simp [zipW3, length_zipW3 f as bs cs]
    omega

theorem length_avgGainSeries (p : EngineerStrategy) (xs : List ℚ) :
    (avgGainSeries p xs).length = xs.length := by
  simp [avgGainSeries, length_ewmMean, length_gainSeries]

theorem length_avgLossSeries (p : EngineerStrategy) (xs : List ℚ) :
    (avgLossSeries p xs).length = xs.length := by
  simp [avgLossSeries, length_ewmMean, length_lossSeries]

theorem length_rsiSeries (p : EngineerStrategy) (xs : List ℚ) :
    (rsiSeries p xs).length = xs.length := by
  simp [rsiSeries, List.length_zipWith, length_avgGainSeries, length_avgLossSeries]

theorem lastTwo_eq_some_getLast? {α : Type} {l : List α} {x y : α}
    (h : lastTwo l = some (x, y)) : l.getLast? = some y := by
  unfold lastTwo at h
  rcases hr : l.reverse with _ | ⟨c, t⟩
  · rw [hr] at h; exact absurd h (by simp)
  · rcases t with _ | ⟨p, rest⟩
    · rw [hr] at h; exact absurd h (by simp)
    · rw [hr] at h
      simp only [Option.some.injEq, Prod.mk.injEq] at h
      rw [List.getLast?_eq_head?_reverse, hr]
      simp [h.2]

theorem lastTwo_of_length {α : Type} {l : List α} (h : 2 ≤ l.length) :
    ∃ x y, lastTwo l = some (x, y) := by
  rcases hr : l.reverse with _ | ⟨c, t⟩
  · have : l = [] := by simpa using congrArg List.reverse hr
    subst this; simp at h
  · rcases t with _ | ⟨p, rest⟩
    · have : l.length = 1 := by
        have := congrArg List.length hr; simpa using this
      omega
    · exact ⟨p, c, by unfold lastTwo; rw [hr]⟩

theorem getLast?_eq_some_of_length {α : Type} {l : List α} (h : 1 ≤ l.length) :
    ∃ x, l.getLast? = some x := by
  have hne : l ≠ [] := by
    intro he; subst he; simp at h
  rcases ho : l.getLast? with _ | x
  · rw [List.getLast?_eq_none_iff] at ho; exact absurd ho hne
  · exact ⟨x, rfl⟩

theorem mem_of_getLast?_eq_some {α : Type} {l : List α} {x : α}
    (h : l.getLast? = some x) : x ∈ l := by
  rw [List.getLast?_eq_head?_reverse] at h
  rw [List.head?_eq_some_iff] at h
  obtain ⟨ys, hys⟩ := h
  have : x ∈ l.reverse := by rw [hys]; exact List.mem_cons_self x ys
  simpa using this

theorem getLast?_zipWith_some {α β γ : Type} {f : α → β → γ} :
    ∀ (as : List α) (bs : List β) (a : α) (b : β),
      as.length = bs.length → as.getLast? = some a → bs.getLast? = some b →
      (List.zipWith f as bs).getLast? = some (f a b)
  | [], _, _, _, _, ha, _ => by simp at ha
  | _ :: _, [], _, _, hl, _, _ => by simp at hl
  | [x], y :: ys, a, b, hl, ha, hb => by
    have : ys = [] := by simpa using hl
    subst this
    simp only [List.getLast?_singleton, Option.some.injEq] at ha hb
    subst ha; subst hb; rfl
  | x :: x2 :: xs, y :: ys, a, b, hl, ha, hb => by
    rcases ys with _ | ⟨y2, ys2⟩
    · simp at hl
    · rw [List.getLast?_cons_cons] at ha hb
      have hl2 : (x2 :: xs).length = (y2 :: ys2).length := by simpa using hl
      have := getLast?_zipWith_some (f := f) (x2 :: xs) (y2 :: ys2) a b hl2 ha hb
      simpa [List.zipWith, List.getLast?_cons_cons] using this

theorem signalCascade_price (pc pr pe e : ℚ) (r : FVal) (t : ℚ) :
    (signalCascade pc pr pe e r t).price = pr := by
  simp only [signalCascade]
  split_ifs <;> rfl

theorem signalCascade_stop_loss (pc pr pe e : ℚ) (r : FVal) (t : ℚ) :
    (signalCascade pc pr pe e r t).stop_loss = e - t * 1 := by
  simp only [signalCascade]
  split_ifs <;> rfl

theorem signalCascade_rsi (pc pr pe e : ℚ) (r : FVal) (t : ℚ) :
    (signalCascade pc pr pe e r t).rsi = r := by
  simp only [signalCascade]
  split_ifs <;> rfl

theorem signalCascade_sell_of_stop (pc pr pe e : ℚ) (r : FVal) (t : ℚ)
    (h : pr < e - t * 1) : (signalCascade pc pr pe e r t).signal = .SELL := by
  simp only [signalCascade]
  rw [if_pos h]

/-- Inversion of a successful `signalOf`: names for the last-two-row values
and the fact that the result is the cascade on them. -/
theorem signalOf_inv {p : EngineerStrategy} {df : DataFrame} {a : Analysis}
    (h : p.signalOf df = some a) :
    ∃ prevClose price prevEma ema rsi atr,
      lastTwo df.close = some (prevClose, price) ∧
      lastTwo (emaSeries p df.close) = some (prevEma, ema) ∧
      (rsiSeries p df.close).getLast? = some rsi ∧
      (atrSeries p df.high df.low df.close).getLast? = some atr ∧
      a = signalCascade prevClose price prevEma ema rsi atr := by
  unfold EngineerStrategy.signalOf at h
  rcases h1 : lastTwo df.close with _ | ⟨pc, pr⟩
  · rw [h1] at h; exact absurd h (by simp)
  rcases h2 : lastTwo (emaSeries p df.close) with _ | ⟨pe, e⟩
  · rw [h1, h2] at h; exact absurd h (by simp)
  rcases h3 : (rsiSeries p df.close).getLast? with _ | r
  · rw [h1, h2, h3] at h; exact absurd h (by simp)
  rcases h4 : (atrSeries p df.high df.low df.close).getLast? with _ | t
  · rw [h1, h2, h3, h4] at h; exact absurd h (by simp)
  rw [h1, h2, h3, h4] at h
  simp only [Option.some.injEq] at h
  exact ⟨pc, pr, pe, e, r, t, rfl, rfl, rfl, rfl, h.symm⟩

/-- On any frame built from at least two bars, the signal generator produces
a result (the index accesses of the source succeed). -/
theorem signalOf_frameOfBars_isSome (p : EngineerStrategy) (l : List Bar)
    (h : 2 ≤ l.length) : ∃ a, p.signalOf (frameOfBars l) = some a := by
  have hclen : (frameOfBars l).close.length = l.length := by simp [frameOfBars]
  obtain ⟨pc, pr, h1⟩ := lastTwo_of_length (l := (frameOfBars l).close) (by omega)
  obtain ⟨pe, e, h2⟩ := lastTwo_of_length (l := emaSeries p (frameOfBars l).close)
    (by rw [emaSeries, length_ewmMean]; omega)
  obtain ⟨r, h3⟩ := getLast?_eq_some_of_length (l := rsiSeries p (frameOfBars l).close)
    (by rw [length_rsiSeries]; omega)
  obtain ⟨t, h4⟩ := getLast?_eq_some_of_length
    (l := atrSeries p (frameOfBars l).high (frameOfBars l).low (frameOfBars l).close)
    (by
      rcases l with _ | ⟨b, bs⟩
      · simp at h
      · simp only [atrSeries, length_ewmMean, frameOfBars, List.map_cons, trSeries,
          List.length_cons, length_zipW3, List.length_map]
        omega)
  rw [EngineerStrategy.signalOf, h1, h2, h3, h4]
  exact ⟨_, rfl⟩

theorem take_eq_of_agree {α : Type} {l1 l2 : List α} {i : ℕ}
    (h : ∀ j, j ≤ i → l1[j]? = l2[j]?) : l1.take (i + 1) = l2.take (i + 1) := by
  apply List.ext_getElem?
  intro n
  by_cases hn : n < i + 1
  · rw [List.getElem?_take_of_lt hn, List.getElem?_take_of_lt hn]
    exact h n (by omega)
  · rw [List.getElem?_take_eq_none (by omega), List.getElem?_take_eq_none (by omega)]

/-! ### C1 -/

/-- C1: No-lookahead.  The signal dictionary the run loop computes at step `i`
(`signalAt`, the strategy applied to the prefix `bars[0..i]`) is identical for
any two primary series that agree on all bars at indices at most `i`; in
particular it is invariant to any mutation of bars at indices beyond `i`.
Since the dictionary carries the signal together with price, ema, rsi and
stop_loss, all of them agree. -/
theorem no_lookahead (bars bars2 : List Bar) (i : ℕ) (_hw : min_window ≤ i)
    (h : ∀ j, j ≤ i → bars[j]? = bars2[j]?) :
    signalAt bars i = signalAt bars2 i := by
  unfold signalAt
  rw [take_eq_of_agree h]

def barsW1 : List Bar :=
  List.replicate 21 ({ date := 0, high := 100, low := 100, close := 100 } : Bar) ++
    [{ date := 21, high := 1, low := 1, close := 1 }]

def barsW2 : List Bar :=
  List.replicate 21 ({ date := 0, high := 100, low := 100, close := 100 } : Bar) ++
    [{ date := 21, high := 7, low := 7, close := 7 }]

/-- C1 witness: two concrete 22-bar series agreeing up to index 20 and
differing at index 21 give the same step-20 signal. -/
theorem no_lookahead_witness : signalAt barsW1 20 = signalAt barsW2 20 :=
  no_lookahead barsW1 barsW2 20 (by decide)
    (by intro j hj; interval_cases j <;> rfl)

/-! ### C4 -/

/-- C4: Signal priority.  On every input frame of at least two bars (so the
strategy returns a dictionary) whose last close is below EMA minus ATR (the
returned stop level) while RSI exceeds 75, `analyze` returns SELL, never
PROFIT: the hard-stop branch is first in the cascade and wins. -/
theorem signal_priority (p : EngineerStrategy) (f : DataFrame) (a : Analysis)
    (ha : (p.analyze f).2 = some a)
    (hstop : a.price < a.stop_loss) (hrsi : fgtC a.rsi 75 = true) :
    a.signal = Signal.SELL := by
  have h2 : p.signalOf f = some a := ha
  obtain ⟨pc, pr, pe, e, r, t, h1, h2e, h3, h4, heq⟩ := signalOf_inv h2
  subst heq
  rw [signalCascade_price, signalCascade_stop_loss] at hstop
  exact signalCascade_sell_of_stop pc pr pe e r t hstop

/-- C4 witness frame: a large jump, a 42-bar plateau, then a small drop; the
high/low columns equal the previous close so every true range is 0.  At the
last bar RSI is just above 75 while the close sits just below the EMA (and
hence below EMA - ATR, as ATR = 0). -/
def barsC4 : List Bar :=
  [{ date := 0, high := 100, low := 100, close := 100 },
   { date := 1, high := 100, low := 100, close := 10100 }] ++
  List.replicate 42 ({ date := 2, high := 10100, low := 10100, close := 10100 } : Bar) ++
  [{ date := 44, high := 10100, low := 10100, close := 9964 }]

def analysisC4 : Analysis :=
  ((defaultStrategy.analyze (frameOfBars barsC4)).2).getD
    { price := 0, ema := 0, rsi := .nan, stop_loss := 0,
      signal := .HOLD, reason := .normalFluctuation, severity := .info }

/-- C4 witness: the concrete frame satisfies both hypotheses and the theorem
yields SELL on it. -/
theorem signal_priority_witness :
    (defaultStrategy.analyze (frameOfBars barsC4)).2 = some analysisC4 ∧
    analysisC4.price < analysisC4.stop_loss ∧
    fgtC analysisC4.rsi 75 = true ∧
    analysisC4.signal = Signal.SELL :=
  ⟨by decide!, by decide!, by decide!,
   signal_priority defaultStrategy (frameOfBars barsC4) analysisC4
     (by decide!) (by decide!) (by decide!)⟩

/-! ### C6 -/

def barsConstPair : List Bar :=
  [{ date := 0, high := 5, low := 5, close := 5 },
   { date := 1, high := 5, low := 5, close := 5 }]

/-- C6 counterexample: on a two-bar constant-price series the Wilder-smoothed
average loss at the last bar is 0, yet the RSI value handed to the signal
logic is NaN (0/0 in the rs quotient), not the real number 100: the
degenerate division is not special-cased. -/
theorem rsi_avg_loss_zero_counterexample :
    (avgLossSeries defaultStrategy (frameOfBars barsConstPair).close).getLast? = some 0 ∧
    ((defaultStrategy.analyze (frameOfBars barsConstPair)).2.map Analysis.rsi) =
      some FVal.nan ∧
    ((defaultStrategy.analyze (frameOfBars barsConstPair)).2.map Analysis.rsi) ≠
      some (FVal.num 100) := by
  refine ⟨by decide!, by decide!, by decide!⟩

/-- C6 amended: when the Wilder-smoothed average loss at the last bar is 0,
the RSI the signal logic sees is 100 exactly when the average gain is nonzero
(the quotient is an infinity and `100 - 100/(1 + rs)` collapses to 100), and
NaN when the average gain is also 0 (the 0/0 quotient propagates). -/
theorem rsi_avg_loss_zero (p : EngineerStrategy) (f : DataFrame) (a : Analysis) (g : ℚ)
    (ha : (p.analyze f).2 = some a)
    (hg : (avgGainSeries p f.close).getLast? = some g)
    (hl : (avgLossSeries p f.close).getLast? = some 0) :
    a.rsi = if g = 0 then FVal.nan else FVal.num 100 := by
  have h2 : p.signalOf f = some a := ha
  obtain ⟨pc, pr, pe, e, r, t, h1, h2e, h3, h4, heq⟩ := signalOf_inv h2
  subst heq
  rw [signalCascade_rsi]
  have hlen : (avgGainSeries p f.close).length = (avgLossSeries p f.close).length := by
    rw [length_avgGainSeries, length_avgLossSeries]
  have hzip := getLast?_zipWith_some (f := fun g l =>
      fsub (FVal.num 100) (fdivF (FVal.num 100) (fadd (FVal.num 1) (qdivF g l))))
    (avgGainSeries p f.close) (avgLossSeries p f.close) g 0 hlen hg hl
  rw [rsiSeries] at h3
  rw [hzip] at h3
  have hr : r = fsub (FVal.num 100) (fdivF (FVal.num 100) (fadd (FVal.num 1) (qdivF g 0))) :=
    (Option.some.inj h3).symm
  subst hr
  rcases lt_trichotomy g 0 with hglt | hgeq | hggt
  · rw [if_neg (by exact ne_of_lt hglt)]
    have : qdivF g 0 = .negInf := by
      unfold qdivF
      rw [if_neg (by simp), if_neg (by simp; linarith), if_pos hglt]
    rw [this]; decide!
  · rw [if_pos hgeq]
    subst hgeq
    have : qdivF 0 0 = .nan := by
      unfold qdivF
      rw [if_neg (by simp), if_neg (by simp), if_neg (by simp)]
    rw [this]; rfl
  · rw [if_neg (by exact ne_of_gt hggt)]
    have : qdivF g 0 = .inf := by
      unfold qdivF
      rw [if_neg (by simp), if_pos hggt]
    rw [this]; decide!

def barsUpPair : List Bar :=
  [{ date := 0, high := 1, low := 1, close := 1 },
   { date := 1, high := 2, low := 2, close := 2 }]

def analysisUp : Analysis :=
  ((defaultStrategy.analyze (frameOfBars barsUpPair)).2).getD
    { price := 0, ema := 0, rsi := .nan, stop_loss := 0,
      signal := .HOLD, reason := .normalFluctuation, severity := .info }

/-- C6 witness for the amended statement: a two-bar rising series has last
average loss 0 and last average gain 1/14, and its RSI is the number 100. -/
theorem rsi_avg_loss_zero_witness :
    (defaultStrategy.analyze (frameOfBars barsUpPair)).2 = some analysisUp ∧
    (avgGainSeries defaultStrategy (frameOfBars barsUpPair).close).getLast? =
      some (1 / 14) ∧
    (avgLossSeries defaultStrategy (frameOfBars barsUpPair).close).getLast? = some 0 ∧
    analysisUp.rsi = if (1 / 14 : ℚ) = 0 then FVal.nan else FVal.num 100 :=
  ⟨by decide!, by decide!, by decide!,
   rsi_avg_loss_zero defaultStrategy (frameOfBars barsUpPair) analysisUp (1 / 14)
     (by decide!) (by decide!) (by decide!)⟩

/-! ### C9 -/

/-- C9 counterexample: `analyze` does not leave the caller's frame unchanged —
on a concrete two-bar frame without indicator columns, the frame coming back
out of `analyze` differs from the argument (the EMA, RSI and ATR columns have
been written into it). -/
theorem analyze_mutates_frame :
    (defaultStrategy.analyze (frameOfBars barsUpPair)).1 ≠ frameOfBars barsUpPair := by
  decide!

/-- C9 amended: `analyze` writes the three indicator columns into the argument
frame (an observable mutation, against which the run loop protects its cached
series by passing a copy), while preserving the close/high/low input columns;
the written columns and the returned dictionary are a function of the input
columns alone — in particular they do not depend on whatever indicator
columns the argument already carried, and equal input series yield equal
outputs. -/
theorem analyze_frame_effect (p : EngineerStrategy) (df : DataFrame)
    (o1 : Option (List ℚ)) (o2 : Option (List FVal)) (o3 : Option (List ℚ)) :
    (p.analyze { df with ema := o1, rsi := o2, atr := o3 }).1 =
      { df with
          ema := some (emaSeries p df.close)
          rsi := some (rsiSeries p df.close)
          atr := some (atrSeries p df.high df.low df.close) } ∧
    (p.analyze { df with ema := o1, rsi := o2, atr := o3 }).2 = (p.analyze df).2 :=
  ⟨rfl, rfl⟩

/-! ### C5 -/

/-- C5: Position Sizer caps.  For every price > stop > 0, any regime tag, and
a sizer with nonnegative account size and base risk fraction, the returned
share count is a nonnegative integer, its notional is at most a quarter of the
account, and its risk (shares times the price-stop distance) is at most
account_size * base_risk_pct * 1.0 — the RISK_ON modifier is the largest one.
(The model is a total function, reflecting that the source raises on no
well-formed numeric input.) -/
theorem position_sizer_caps (ps : PositionSizer) (price stop_loss : ℚ) (regime : String)
    (hs : 0 < stop_loss) (hp : stop_loss < price)
    (hacct : 0 ≤ ps.account_size) (hbase : 0 ≤ ps.base_risk_pct) :
    0 ≤ (ps.calculate_size price stop_loss regime).shares ∧
    ((ps.calculate_size price stop_loss regime).shares : ℚ) * price ≤
      1 / 4 * ps.account_size ∧
    ((ps.calculate_size price stop_loss regime).shares : ℚ) * (price - stop_loss) ≤
      ps.account_size * ps.base_risk_pct * 1 := by
  have hpr : 0 < price := hs.trans hp
  have hrps : 0 < price - stop_loss := by linarith
  have hmod_pos : 0 < risk_modifier regime := by
    unfold risk_modifier; split_ifs <;> norm_num
  have hmod_le : risk_modifier regime ≤ 1 := by
    unfold risk_modifier; split_ifs <;> norm_num
  simp only [PositionSizer.calculate_size]
  rw [if_neg (by linarith : ¬ price - stop_loss ≤ 0)]
  set m := risk_modifier regime with hm
  set A := ps.account_size * (ps.base_risk_pct * m) / (price - stop_loss) with hA
  set B := ps.account_size * (1 / 4) / price with hB
  have hA0 : 0 ≤ A := by
    apply div_nonneg _ hrps.le
    have : 0 ≤ ps.base_risk_pct * m := mul_nonneg hbase hmod_pos.le
    exact mul_nonneg hacct this
  have hB0 : 0 ≤ B := by
    apply div_nonneg _ hpr.le
    exact mul_nonneg hacct (by norm_num)
  have hfl_le : (⌊min A B⌋ : ℚ) ≤ min A B := Int.floor_le _
  have hfl0 : 0 ≤ ⌊min A B⌋ := Int.le_floor.mpr (by
    push_cast
    exact le_min hA0 hB0)
  refine ⟨hfl0, ?_, ?_⟩
  · have h1 : (⌊min A B⌋ : ℚ) ≤ B := hfl_le.trans (min_le_right _ _)
    have h2 : (⌊min A B⌋ : ℚ) * price ≤ B * price :=
      mul_le_mul_of_nonneg_right h1 hpr.le
    rw [hB] at h2
    rw [div_mul_cancel₀ _ hpr.ne'] at h2
    linarith
  · have h1 : (⌊min A B⌋ : ℚ) ≤ A := hfl_le.trans (min_le_left _ _)
    have h2 : (⌊min A B⌋ : ℚ) * (price - stop_loss) ≤ A * (price - stop_loss) :=
      mul_le_mul_of_nonneg_right h1 hrps.le
    rw [hA] at h2
    rw [div_mul_cancel₀ _ hrps.ne'] at h2
    have h3 : ps.account_size * (ps.base_risk_pct * m) ≤
        ps.account_size * ps.base_risk_pct * 1 := by
      have : 0 ≤ ps.account_size * ps.base_risk_pct := mul_nonneg hacct hbase
      calc ps.account_size * (ps.base_risk_pct * m)
          = ps.account_size * ps.base_risk_pct * m := by ring
        _ ≤ ps.account_size * ps.base_risk_pct * 1 :=
            mul_le_mul_of_nonneg_left hmod_le this
    linarith

/-- C5 witness: the default sizer at price 100, stop 90, RISK_ON gives a
nonnegative integer share count within both caps. -/
theorem position_sizer_caps_witness :
    0 ≤ (({} : PositionSizer).calculate_size 100 90 "RISK_ON").shares ∧
    ((({} : PositionSizer).calculate_size 100 90 "RISK_ON").shares : ℚ) * 100 ≤
      1 / 4 * ({} : PositionSizer).account_size ∧
    ((({} : PositionSizer).calculate_size 100 90 "RISK_ON").shares : ℚ) * (100 - 90) ≤
      ({} : PositionSizer).account_size * ({} : PositionSizer).base_risk_pct * 1 :=
  position_sizer_caps {} 100 90 "RISK_ON" (by decide!) (by decide!) (by decide!) (by decide!)

/-! ### C3 -/

def reasonW : TradeReason := { tech := .normalFluctuation, ai := .agree }

/-- C3: Round-trip capital accounting.  From a flat state (no shares, zero
total cost), a BUY of q >= 1 shares at price p followed by a full SELL at the
same price, with slippage rate 0, restores cash exactly to its pre-BUY value,
and the appended SELL record carries realized pnl exactly 0. -/
theorem round_trip (bt : Backtester) (h0s : bt.shares = 0) (h0c : bt.total_cost = 0)
    (hslip : bt.slippage_pct = 0) (q : ℤ) (hq : 1 ≤ q) (p : ℚ) (_hp : 0 < p)
    (d d2 : ℕ) (r r2 : TradeReason) :
    ((bt.buy d p q r).sell d2 p r2).cash = bt.cash ∧
    (((bt.buy d p q r).sell d2 p r2).trades.getLast?).map TradeRec.type =
      some TradeType.SELL ∧
    (((bt.buy d p q r).sell d2 p r2).trades.getLast?).map TradeRec.pnl =
      some (some 0) := by
  unfold Backtester.buy Backtester.sell
  simp only [h0s, h0c, hslip]
  rw [if_pos (by omega : (0:ℤ) < 0 + q)]
  refine ⟨?_, ?_, ?_⟩
  · push_cast
    ring
  · simp only [List.getLast?_concat]
    rfl
  · have hpnl : ((0 + q : ℤ) : ℚ) * (p * (1 - 0)) - (0 + (q : ℚ) * (p * (1 + 0))) = 0 := by
      push_cast
      ring
    rw [hpnl]
    simp only [List.getLast?_concat]
    rfl

def btRoundTrip : Backtester := { cash := 500, slippage_pct := 0 }

/-- C3 witness: buy 2 shares at 10 then sell at 10 with zero slippage from
cash 500; cash returns to 500 and the SELL record's pnl is 0. -/
theorem round_trip_witness :
    ((btRoundTrip.buy 0 10 2 reasonW).sell 1 10 reasonW).cash = btRoundTrip.cash ∧
    (((btRoundTrip.buy 0 10 2 reasonW).sell 1 10 reasonW).trades.getLast?).map
      TradeRec.type = some TradeType.SELL ∧
    (((btRoundTrip.buy 0 10 2 reasonW).sell 1 10 reasonW).trades.getLast?).map
      TradeRec.pnl = some (some 0) :=
  round_trip btRoundTrip rfl rfl rfl 2 (by decide) 10 (by decide) 0 1 reasonW reasonW

/-! ### C8 -/

/-- A buy or sell command against the engine state, as issued by the run
loop. -/
inductive BtOp where
  | buyOp (date : ℕ) (price : ℚ) (qty : ℤ) (reason : TradeReason)
  | sellOp (date : ℕ) (price : ℚ) (reason : TradeReason)

/-- Apply one command through the engine's own operations. -/
def applyOp (bt : Backtester) : BtOp → Backtester
  | .buyOp d p q r => bt.buy d p q r
  | .sellOp d p r => bt.sell d p r

/-- The quantity discipline of the claim: buys carry a nonnegative quantity. -/
def opQtyNonneg : BtOp → Bool
  | .buyOp _ _ q _ => decide (0 ≤ q)
  | .sellOp _ _ _ => true

theorem applyOp_invariant (bt : Backtester) (op : BtOp)
    (hop : opQtyNonneg op = true)
    (hs : 0 ≤ bt.shares) (hc : bt.shares = 0 → bt.total_cost = 0) :
    0 ≤ (applyOp bt op).shares ∧
      ((applyOp bt op).shares = 0 → (applyOp bt op).total_cost = 0) := by
  cases op with
  | buyOp d p q r =>
    simp only [opQtyNonneg, decide_eq_true_eq] at hop
    simp only [applyOp, Backtester.buy]
    constructor
    · omega
    · intro h0
      have hq0 : q = 0 := by omega
      have hs0 : bt.shares = 0 := by omega
      rw [hc hs0, hq0]
      push_cast
      ring
  | sellOp d p r =>
    simp only [applyOp, Backtester.sell]
    split_ifs with hpos
    · exact ⟨le_refl 0, fun _ => rfl⟩
    · exact ⟨hs, hc⟩

/-- C8: Position invariant.  From the initial engine state (no shares, zero
total cost), every sequence of buy operations with nonnegative quantities and
sell operations keeps the share count nonnegative and keeps total_cost equal
to 0 whenever the share count is 0 (sell resets both together). -/
theorem position_invariant (bt : Backtester) (ops : List BtOp)
    (h0s : bt.shares = 0) (h0c : bt.total_cost = 0)
    (hops : ∀ op ∈ ops, opQtyNonneg op = true) :
    0 ≤ (ops.foldl applyOp bt).shares ∧
      ((ops.foldl applyOp bt).shares = 0 → (ops.foldl applyOp bt).total_cost = 0) := by
  have general : ∀ (L : List BtOp) (b : Backtester),
      (∀ op ∈ L, opQtyNonneg op = true) →
      0 ≤ b.shares → (b.shares = 0 → b.total_cost = 0) →
      0 ≤ (L.foldl applyOp b).shares ∧
        ((L.foldl applyOp b).shares = 0 → (L.foldl applyOp b).total_cost = 0) := by
    intro L
    induction L with
    | nil => intro b _ hs hc; exact ⟨hs, hc⟩
    | cons op L ih =>
      intro b hL hs hc
      have hop := hL op (List.mem_cons_self op L)
      have hrest : ∀ o ∈ L, opQtyNonneg o = true := fun o ho => hL o (List.mem_cons_of_mem op ho)
      have hstep := applyOp_invariant b op hop hs hc
      exact ih (applyOp b op) hrest hstep.1 hstep.2
  exact general ops bt hops (by omega) (fun _ => h0c)

def btPos : Backtester := { cash := 1000, slippage_pct := 0 }

def opsPos : List BtOp :=
  [.buyOp 0 10 3 reasonW, .sellOp 1 12 reasonW, .buyOp 2 5 0 reasonW]

/-- C8 witness: a concrete buy/sell/zero-buy sequence from the initial state
keeps the invariant. -/
theorem position_invariant_witness :
    0 ≤ (opsPos.foldl applyOp btPos).shares ∧
      ((opsPos.foldl applyOp btPos).shares = 0 →
        (opsPos.foldl applyOp btPos).total_cost = 0) :=
  position_invariant btPos opsPos rfl rfl (by decide)

/-! ### Engine step structure lemmas -/

/-- Case analysis of one run-loop step: either the step leaves the state
untouched (empty slice, date before start_date, or no signal), or it appends
one equity point and applies the decision logic. -/
theorem step_cases (bt : Backtester) (bars : List Bar) (i : ℕ) :
    bt.step bars i = bt ∨
    ∃ lb a, (bars.take (i + 1)).getLast? = some lb ∧
      skipByStart bt.start_date lb.date = false ∧
      signalAt bars i = some a ∧
      bt.step bars i =
        Backtester.decision
          { bt with equity_curve := bt.equity_curve ++
              [{ date := lb.date, equity := bt.cash + (bt.shares : ℚ) * a.price }] }
          i lb.date a := by
  unfold Backtester.step
  rcases h1 : (bars.take (i + 1)).getLast? with _ | lb
  · exact Or.inl rfl
  · dsimp only
    by_cases hskip : skipByStart bt.start_date lb.date = true
    · rw [if_pos hskip]
      exact Or.inl rfl
    · rw [if_neg hskip]
      rcases h2 : signalAt bars i with _ | a
      · exact Or.inl rfl
      · dsimp only
        exact Or.inr ⟨lb, a, rfl, by simpa using hskip, rfl, rfl⟩

theorem sell_config (bt : Backtester) (d : ℕ) (p : ℚ) (r : TradeReason) :
    (bt.sell d p r).start_date = bt.start_date ∧
    (bt.sell d p r).use_ai = bt.use_ai ∧
    (bt.sell d p r).slippage_pct = bt.slippage_pct ∧
    (bt.sell d p r).equity_curve = bt.equity_curve := by
  unfold Backtester.sell
  split_ifs <;> exact ⟨rfl, rfl, rfl, rfl⟩

theorem decision_config (bt : Backtester) (i d : ℕ) (a : Analysis) :
    (bt.decision i d a).start_date = bt.start_date ∧
    (bt.decision i d a).use_ai = bt.use_ai ∧
    (bt.decision i d a).slippage_pct = bt.slippage_pct ∧
    (bt.decision i d a).equity_curve = bt.equity_curve := by
  simp only [Backtester.decision]
  split_ifs <;> first
    | exact ⟨rfl, rfl, rfl, rfl⟩
    | exact sell_config bt d _ _

theorem step_config (bt : Backtester) (bars : List Bar) (i : ℕ) :
    (bt.step bars i).start_date = bt.start_date ∧
    (bt.step bars i).use_ai = bt.use_ai ∧
    (bt.step bars i).slippage_pct = bt.slippage_pct := by
  rcases step_cases bt bars i with heq | ⟨lb, a, _, _, _, heq⟩ <;> rw [heq]
  · exact ⟨rfl, rfl, rfl⟩
  · have h := decision_config
      { bt with equity_curve := bt.equity_curve ++
          [{ date := lb.date, equity := bt.cash + (bt.shares : ℚ) * a.price }] }
      i lb.date a
    exact ⟨h.1, h.2.1, h.2.2.1⟩

/-! ### C2 -/

/-- When the advisory verdict is Disagree, the decision logic executes no
trade: cash, shares, total cost and the trade ledger are untouched. -/
theorem decision_disagree (bt : Backtester) (i d : ℕ) (a : Analysis)
    (hai : bt.use_ai = true) (hv : parseVdt (bt.aiResp i) = .disagree) :
    (bt.decision i d a).cash = bt.cash ∧ (bt.decision i d a).shares = bt.shares ∧
    (bt.decision i d a).total_cost = bt.total_cost ∧
    (bt.decision i d a).trades = bt.trades := by
  simp only [Backtester.decision, hai]
  split_ifs <;> simp_all

/-- C2 amended: a BUY or SELL/PROFIT step whose advisory response contains
neither the Agree marker nor the Caution marker — in particular every failure
string the analyst returns when the external call errors — parses as
Disagree, so the trade is vetoed: the step leaves cash, shares, total cost and
the trade ledger unchanged (it still completes normally, recording equity and
letting the simulation continue). -/
theorem advisory_failure_vetoes (bt : Backtester) (bars : List Bar) (i : ℕ)
    (hai : bt.use_ai = true)
    (hA : containsSub agreeMarker (bt.aiResp i) = false)
    (hC : containsSub cautionMarker (bt.aiResp i) = false) :
    (bt.step bars i).cash = bt.cash ∧ (bt.step bars i).shares = bt.shares ∧
    (bt.step bars i).total_cost = bt.total_cost ∧
    (bt.step bars i).trades = bt.trades := by
  have hv : parseVdt (bt.aiResp i) = .disagree := by
    unfold parseVdt
    rw [hA, hC]
    rfl
  rcases step_cases bt bars i with heq | ⟨lb, a, _, _, _, heq⟩ <;> rw [heq]
  · exact ⟨rfl, rfl, rfl, rfl⟩
  · exact decision_disagree
      { bt with equity_curve := bt.equity_curve ++
          [{ date := lb.date, equity := bt.cash + (bt.shares : ℚ) * a.price }] }
      i lb.date a hai hv

/-- A 21-bar series whose step-20 signal is BUY: a long flat stretch, a dip
below the EMA, then a fresh breakout above it. -/
def barsBuy : List Bar :=
  (List.range 19).map (fun j => { date := j, high := 100, low := 100, close := 100 }) ++
  [{ date := 19, high := 90, low := 90, close := 90 },
   { date := 20, high := 101, low := 101, close := 101 }]

/-- The engine wired to an external analyst whose call fails: the response is
the error string `AIAnalyst.get_analysis` returns on a non-200 status. -/
def btFail : Backtester :=
  { start_date := none, use_ai := true, slippage_pct := 0,
    aiResp := fun _ => "AI Analysis failed (API Error).", cash := 10000 }

/-- The same engine with an analyst that answers with an Agree verdict. -/
def btAgree : Backtester :=
  { start_date := none, use_ai := true, slippage_pct := 0,
    aiResp := fun _ => "**Verdict:** ✅ Agree", cash := 10000 }

/-- C2 counterexample: the advisory failure string parses as Disagree, not
Agree, and on a concrete run with a BUY signal the failing advisory vetoes
the trade (no trade executes), while the identical run with an Agree response
does trade — refuting the claim that failures are treated as the neutral
non-blocking Agree. -/
theorem advisory_failure_counterexample :
    parseVdt "AI Analysis failed (API Error)." = Verdict.disagree ∧
    (btFail.run barsBuy).trades = [] ∧
    (btAgree.run barsBuy).trades ≠ [] := by
  refine ⟨by decide!, by decide!, by decide!⟩

/-- C2 witness for the amended statement: the concrete failing-advisory engine
at the BUY step keeps its ledger and cash unchanged. -/
theorem advisory_failure_vetoes_witness :
    (btFail.step barsBuy 20).trades = btFail.trades ∧
    (btFail.step barsBuy 20).cash = btFail.cash :=
  ⟨(advisory_failure_vetoes btFail barsBuy 20 rfl (by decide!) (by decide!)).2.2.2,
   (advisory_failure_vetoes btFail barsBuy 20 rfl (by decide!) (by decide!)).1⟩

/-! ### C7 -/

/-- Whether the step at index `i` records an equity point: the slice must be
nonempty and the bar's date must not precede start_date. -/
def shouldRecord (sd : Option ℕ) (bars : List Bar) (i : ℕ) : Bool :=
  match (bars.take (i + 1)).getLast? with
  | none => false
  | some b => !skipByStart sd b.date

theorem sell_equity (bt : Backtester) (d : ℕ) (p : ℚ) (r : TradeReason) :
    (bt.sell d p r).equity_curve = bt.equity_curve :=
  (sell_config bt d p r).2.2.2

theorem decision_equity (bt : Backtester) (i d : ℕ) (a : Analysis) :
    (bt.decision i d a).equity_curve = bt.equity_curve :=
  (decision_config bt i d a).2.2.2

theorem signalAt_isSome_of (bars : List Bar) (i : ℕ)
    (h2 : 2 ≤ (bars.take (i + 1)).length) : ∃ a, signalAt bars i = some a :=
  signalOf_frameOfBars_isSome defaultStrategy (bars.take (i + 1)) h2

/-- One step extends the equity curve by one point exactly when
`shouldRecord` holds, provided the index is a genuine loop index (at least
the warm-up window and within the series). -/
theorem step_equity_length (bt : Backtester) (bars : List Bar) (i : ℕ)
    (hi : min_window ≤ i) (hlen : i < bars.length) :
    (bt.step bars i).equity_curve.length =
      bt.equity_curve.length +
        (if shouldRecord bt.start_date bars i then 1 else 0) := by
  unfold Backtester.step shouldRecord
  rcases h1 : (bars.take (i + 1)).getLast? with _ | lb
  · simp
  · dsimp only
    by_cases hskip : skipByStart bt.start_date lb.date = true
    · rw [if_pos hskip, hskip]
      simp
    · rw [if_neg hskip]
      have h2 : 2 ≤ (bars.take (i + 1)).length := by
        rw [List.length_take]
        unfold min_window at hi
        omega
      obtain ⟨a, ha⟩ := signalAt_isSome_of bars i h2
      rw [ha]
      dsimp only
      rw [decision_equity]
      rw [Bool.not_eq_true] at hskip
      rw [hskip]
      simp

theorem step_start_date (bt : Backtester) (bars : List Bar) (i : ℕ) :
    (bt.step bars i).start_date = bt.start_date :=
  (step_config bt bars i).1

/-- C7 amended: the equity curve of a run contains one entry exactly for each
loop index `i` in `[min_window, length)` whose bar date passes the start-date
filter; steps whose bar date precedes start_date are skipped entirely and
record nothing. -/
theorem run_equity_count (bt : Backtester) (bars : List Bar) :
    (bt.run bars).equity_curve.length =
      bt.equity_curve.length +
        ((List.range' min_window (bars.length - min_window)).filter
          (fun i => shouldRecord bt.start_date bars i)).length := by
  unfold Backtester.run
  have hmem : ∀ i ∈ List.range' min_window (bars.length - min_window),
      min_window ≤ i ∧ i < bars.length := by
    intro i hi
    rw [List.mem_range'_1] at hi
    omega
  have general : ∀ (L : List ℕ) (b : Backtester), b.start_date = bt.start_date →
      (∀ i ∈ L, min_window ≤ i ∧ i < bars.length) →
      (L.foldl (fun x j => x.step bars j) b).equity_curve.length =
        b.equity_curve.length +
          (L.filter (fun i => shouldRecord bt.start_date bars i)).length := by
    intro L
    induction L with
    | nil => intro b _ _; simp
    | cons j L ih =>
      intro b hsd hmem2
      have hj := hmem2 j (List.mem_cons_self _ _)
      have hstep := step_equity_length b bars j hj.1 hj.2
      rw [hsd] at hstep
      simp only [List.foldl_cons, List.filter_cons]
      rw [ih (b.step bars j) ((step_start_date b bars j).trans hsd)
        (fun i hi => hmem2 i (List.mem_cons_of_mem _ hi))]
      rw [hstep]
      by_cases hrec : shouldRecord bt.start_date bars j = true
      · simp only [hrec, if_true]
        simp
        omega
      · rw [Bool.not_eq_true] at hrec
        simp only [hrec]
        simp
  exact general _ bt rfl hmem

/-- A 22-bar series with distinct dates 0..21 and constant prices. -/
def barsSkip : List Bar :=
  (List.range 22).map (fun j => { date := j, high := 100, low := 100, close := 100 })

/-- An engine whose start_date is the date of the last bar, so the first
post-warm-up step (index 20, date 20) precedes it. -/
def btSkip : Backtester :=
  { start_date := some 21, use_ai := false, slippage_pct := 0, cash := 10000 }

/-- C7 counterexample: with start_date set past the date of step 20, the run
records only one equity point although two steps (indices 20 and 21) are
simulated from the warm-up index on — the skipped pre-start step records no
equity point, refuting the claim that the equity curve has one entry for
every step from the warm-up index onward. -/
theorem warmup_equity_counterexample :
    (btSkip.run barsSkip).equity_curve.length = 1 ∧
    barsSkip.length - min_window = 2 ∧
    (btSkip.run barsSkip).equity_curve.length ≠ barsSkip.length - min_window := by
  refine ⟨by decide!, by decide!, by decide!⟩

/-! ### C10 -/

theorem signalAt_price_pos (bars : List Bar) (i : ℕ) (a : Analysis)
    (hsig : signalAt bars i = some a) (hpos : ∀ b ∈ bars, 0 < b.close) :
    0 < a.price := by
  have h2 : defaultStrategy.signalOf (frameOfBars (bars.take (i + 1))) = some a := hsig
  obtain ⟨pc, pr, pe, e, r, t, h1, _, _, _, heq⟩ := signalOf_inv h2
  subst heq
  rw [signalCascade_price]
  have hl0 : ((bars.take (i + 1)).map Bar.close).getLast? = some pr := by
    have := lastTwo_eq_some_getLast? h1
    simpa [frameOfBars] using this
  rw [List.getLast?_map] at hl0
  rcases ho : (bars.take (i + 1)).getLast? with _ | b
  · rw [ho] at hl0
    exact absurd hl0 (by simp)
  · rw [ho] at hl0
    simp only [Option.map_some', Option.some.injEq] at hl0
    have hb : b ∈ bars := (List.take_sublist (i + 1) bars).mem (mem_of_getLast?_eq_some ho)
    rw [← hl0]
    exact hpos b hb

theorem buy_nonneg (bt : Backtester) (d : ℕ) (price : ℚ) (q : ℤ) (r : TradeReason)
    (hc : 0 ≤ bt.cash) (hs : 0 ≤ bt.shares)
    (hsl0 : 0 ≤ bt.slippage_pct) (hsl1 : bt.slippage_pct ≤ 1)
    (hq : 0 < q) (hqp : (q : ℚ) * price ≤ bt.cash * (3 / 10)) :
    0 ≤ (bt.buy d price q r).cash ∧ 0 ≤ (bt.buy d price q r).shares := by
  unfold Backtester.buy
  constructor
  · show 0 ≤ bt.cash - (q : ℚ) * (price * (1 + bt.slippage_pct))
    have h1 : (q : ℚ) * (price * (1 + bt.slippage_pct)) =
        ((q : ℚ) * price) * (1 + bt.slippage_pct) := by ring
    have h2 : ((q : ℚ) * price) * (1 + bt.slippage_pct) ≤
        (bt.cash * (3 / 10)) * (1 + bt.slippage_pct) :=
      mul_le_mul_of_nonneg_right hqp (by linarith)
    have h3 : (bt.cash * (3 / 10)) * (1 + bt.slippage_pct) ≤ (bt.cash * (3 / 10)) * 2 :=
      mul_le_mul_of_nonneg_left (by linarith) (by linarith)
    linarith
  · show 0 ≤ bt.shares + q
    omega

theorem sell_nonneg (bt : Backtester) (d : ℕ) (price : ℚ) (r : TradeReason)
    (hc : 0 ≤ bt.cash) (hs : 0 ≤ bt.shares)
    (hp : 0 ≤ price) (hsl1 : bt.slippage_pct ≤ 1) :
    0 ≤ (bt.sell d price r).cash ∧ 0 ≤ (bt.sell d price r).shares := by
  unfold Backtester.sell
  split_ifs with hpos
  · constructor
    · show 0 ≤ bt.cash + (bt.shares : ℚ) * (price * (1 - bt.slippage_pct))
      have h1 : (0 : ℚ) ≤ (bt.shares : ℚ) := by exact_mod_cast hs
      have h2 : (0 : ℚ) ≤ price * (1 - bt.slippage_pct) :=
        mul_nonneg hp (by linarith)
      have := mul_nonneg h1 h2
      linarith
    · exact le_refl 0
  · exact ⟨hc, hs⟩

theorem decision_nonneg (bt : Backtester) (i d : ℕ) (a : Analysis)
    (hc : 0 ≤ bt.cash) (hs : 0 ≤ bt.shares)
    (hsl0 : 0 ≤ bt.slippage_pct) (hsl1 : bt.slippage_pct ≤ 1)
    (hp : 0 < a.price) :
    0 ≤ (bt.decision i d a).cash ∧ 0 ≤ (bt.decision i d a).shares := by
  simp only [Backtester.decision]
  by_cases hsig : a.signal = Signal.BUY
  · rw [if_pos hsig]
    by_cases hcp : bt.cash > a.price
    · rw [if_pos hcp]
      set v := if bt.use_ai = true then parseVdt (bt.aiResp i) else Verdict.agree with hv
      by_cases hvd : v ≠ Verdict.disagree
      · rw [if_pos hvd]
        set M := if v = Verdict.agree then (3 : ℚ) / 2
          else if v = Verdict.caution then (1 : ℚ) / 2 else 1 with hM
        have hM0 : 0 ≤ M := by rw [hM]; split_ifs <;> norm_num
        have hM32 : M ≤ 3 / 2 := by rw [hM]; split_ifs <;> norm_num
        have hT0 : bt.cash * (2 / 10) * M ≤ bt.cash * (3 / 10) := by nlinarith
        have hTc : ¬ (bt.cash * (2 / 10) * M > bt.cash) := by
          push_neg
          linarith
        rw [if_neg hTc]
        by_cases hq : (0 : ℤ) < ⌊bt.cash * (2 / 10) * M / a.price⌋
        · rw [if_pos hq]
          apply buy_nonneg bt d a.price _ _ hc hs hsl0 hsl1 hq
          have h1 : ((⌊bt.cash * (2 / 10) * M / a.price⌋ : ℤ) : ℚ) ≤
              bt.cash * (2 / 10) * M / a.price := Int.floor_le _
          have h2 : ((⌊bt.cash * (2 / 10) * M / a.price⌋ : ℤ) : ℚ) * a.price ≤
              bt.cash * (2 / 10) * M := (le_div_iff₀ hp).mp h1
          linarith
        · rw [if_neg hq]
          exact ⟨hc, hs⟩
      · rw [if_neg hvd]
        exact ⟨hc, hs⟩
    · rw [if_neg hcp]
      exact ⟨hc, hs⟩
  · rw [if_neg hsig]
    by_cases hsig2 : a.signal = Signal.SELL ∨ a.signal = Signal.PROFIT
    · rw [if_pos hsig2]
      by_cases hsh : (0 : ℤ) < bt.shares
      · rw [if_pos hsh]
        by_cases hvd : (if bt.use_ai = true then parseVdt (bt.aiResp i) else Verdict.agree) =
            Verdict.disagree
        · rw [if_pos hvd]
          exact ⟨hc, hs⟩
        · rw [if_neg hvd]
          exact sell_nonneg bt d a.price _ hc hs hp.le hsl1
      · rw [if_neg hsh]
        exact ⟨hc, hs⟩
    · rw [if_neg hsig2]
      exact ⟨hc, hs⟩

theorem step_nonneg (bt : Backtester) (bars : List Bar) (i : ℕ)
    (hc : 0 ≤ bt.cash) (hs : 0 ≤ bt.shares)
    (hsl0 : 0 ≤ bt.slippage_pct) (hsl1 : bt.slippage_pct ≤ 1)
    (hpos : ∀ b ∈ bars, 0 < b.close) :
    0 ≤ (bt.step bars i).cash ∧ 0 ≤ (bt.step bars i).shares := by
  rcases step_cases bt bars i with heq | ⟨lb, a, _, _, hsig, heq⟩
  · rw [heq]
    exact ⟨hc, hs⟩
  · rw [heq]
    have hp := signalAt_price_pos bars i a hsig hpos
    exact decision_nonneg _ i lb.date a hc hs hsl0 hsl1 hp

/-- C10 amended: for every run over a series with positive closes, starting
with nonnegative cash and a slippage rate in [0, 1], cash (and the share
count) stays nonnegative: each executed BUY spends at most
0.2 * 1.5 * cash * (1 + slippage) <= cash, and a SELL at a positive price only
adds to cash. -/
theorem run_cash_nonneg (bt : Backtester) (bars : List Bar)
    (hc : 0 ≤ bt.cash) (hs : 0 ≤ bt.shares)
    (hsl0 : 0 ≤ bt.slippage_pct) (hsl1 : bt.slippage_pct ≤ 1)
    (hpos : ∀ b ∈ bars, 0 < b.close) :
    0 ≤ (bt.run bars).cash ∧ 0 ≤ (bt.run bars).shares := by
  unfold Backtester.run
  have general : ∀ (L : List ℕ) (b : Backtester),
      0 ≤ b.cash → 0 ≤ b.shares → 0 ≤ b.slippage_pct → b.slippage_pct ≤ 1 →
      0 ≤ (L.foldl (fun x j => x.step bars j) b).cash ∧
      0 ≤ (L.foldl (fun x j => x.step bars j) b).shares := by
    intro L
    induction L with
    | nil => intro b h1 h2 _ _; exact ⟨h1, h2⟩
    | cons j L ih =>
      intro b h1 h2 h3 h4
      have hstep := step_nonneg b bars j h1 h2 h3 h4 hpos
      have hslip := (step_config b bars j).2.2
      exact ih (b.step bars j) hstep.1 hstep.2
        (by rw [hslip]; exact h3) (by rw [hslip]; exact h4)
  exact general _ bt hc hs hsl0 hsl1

/-- A 22-bar series ending in a crash to a negative close, after a step whose
signal is BUY. -/
def barsCrash : List Bar :=
  (List.range 19).map (fun j => { date := j, high := 100, low := 100, close := 100 }) ++
  [{ date := 19, high := 90, low := 90, close := 90 },
   { date := 20, high := 101, low := 101, close := 101 },
   { date := 21, high := -1000, low := -1000, close := -1000 }]

def btCrash : Backtester :=
  { start_date := none, use_ai := false, slippage_pct := 0, cash := 10000 }

/-- C10 counterexample: a run starting with cash 10000 >= 0 and slippage 0 in
[0, 1] ends with negative cash — the step-20 BUY acquires 29 shares, and the
step-21 SELL at the negative close price adds a negative revenue to cash.  So
cash non-negativity does not hold for every run; it needs positive closes. -/
theorem cash_negative_counterexample :
    (0 : ℚ) ≤ btCrash.cash ∧ (0 : ℚ) ≤ btCrash.slippage_pct ∧
    btCrash.slippage_pct ≤ 1 ∧ (btCrash.run barsCrash).cash < 0 := by
  refine ⟨by decide!, by decide!, by decide!, by decide!⟩

def btRunPos : Backtester :=
  { start_date := none, use_ai := false, slippage_pct := 1 / 1000, cash := 10000 }

/-- C10 witness for the amended statement: a concrete run over positive-close
bars with slippage 1/1000 keeps cash and shares nonnegative. -/
theorem run_cash_nonneg_witness :
    0 ≤ (btRunPos.run barsBuy).cash ∧ 0 ≤ (btRunPos.run barsBuy).shares :=
  run_cash_nonneg btRunPos barsBuy (by decide!) (by decide!) (by decide!) (by decide!)
    (by decide!)

end StockSentinel
